import Mathlib

/-!
Verification development for the GenericCLI command engine
(src/generic_cli.cpp of the Arduino.GenericCli repository).

Strings of the source (Arduino String) are modelled as List Char.
Serial output is modelled as a list of output events so that echo and
error reporting stay observable without modelling the byte transport.
-/

namespace GenericCLI

/-- Convenience conversion from a Lean string literal to the List Char
representation used throughout this development. -/
def lc (s : String) : List Char := s.toList

/-- The ASCII apostrophe character, used in several diagnostic messages. -/
def apos : Char := Char.ofNat 39

/-- ASCII lower-casing of a single character, as done by tolower on the
target platform for the values that occur in command names. -/
def toLowerCh (c : Char) : Char :=
  if 'A' ≤ c ∧ c ≤ 'Z' then Char.ofNat (c.toNat + 32) else c

/-- Lower-casing of a whole string, modelling String.toLowerCase and the
character-wise comparison of String.equalsIgnoreCase. -/
def lowerStr (s : List Char) : List Char := s.map toLowerCh

/-- Decimal digits of a natural number, modelling the %d conversion of
Serial.printf. -/
def natChars (n : Nat) : List Char := (Nat.repr n).toList

/-- Index of the first occurrence of a character in a list, modelling
String.indexOf relative to a start position (the caller passes the
suffix starting at that position). -/
def indexOfCh (t : Char) : List Char → Option Nat
  | [] => none
  | c :: cs => if c = t then some 0 else (indexOfCh t cs).map (· + 1)

/-- Message kinds of the output formatter (MessageType in the source). -/
inductive MessageType where
  | SUCCESS
  | ERROR
  | WARNING
  | INFO
  | NORMAL
deriving DecidableEq, Repr

/-- One observable output action on the serial port.  raw is a direct
Serial.print of literal text or escape codes, msg is a println routed
through formatMessage, prompt is printPrompt, newline is Serial.println. -/
inductive OutEvent where
  | raw (text : List Char)
  | msg (kind : MessageType) (text : List Char)
  | prompt
  | newline
deriving DecidableEq, Repr

/-- Configuration of the engine (CLIConfig in the source header). -/
structure CLIConfig where
  prompt : List Char
  welcomeMessage : List Char
  colorsEnabled : Bool
  echoEnabled : Bool
  historySize : Nat
  caseSensitive : Bool
  logTag : List Char
deriving DecidableEq, Repr

/-- Parsed command arguments: ordered positional tokens plus a flag map
(CLIArgs in the source header). -/
structure CLIArgs where
  positional : List (List Char)
  flags : List (List Char × List Char)
deriving DecidableEq, Repr

/-- One engine-level effect a command handler may perform through the
public API of the engine while it runs. -/
inductive HandlerStep where
  | emit (kind : MessageType) (text : List Char)
  | stopCLI
  | clearHistory
deriving DecidableEq, Repr

/-- Observable behaviour of one handler invocation: the effects it
performs, ending either in a normal return, a thrown std::exception
carrying a what() message, or a thrown value of any other type.
Handlers are opaque C++ closures in the source; this type captures
exactly what the dispatcher in executeCommand can observe of them. -/
inductive CallbackBehavior where
  | done (steps : List HandlerStep)
  | throwStd (steps : List HandlerStep) (what : List Char)
  | throwUnknown (steps : List HandlerStep)

/-- A registered command (CLICommand in the source): name, description,
usage, handler, hidden flag and category, in constructor order. -/
structure CLICommand where
  name : List Char
  description : List Char
  usage : List Char
  callback : CLIArgs → CallbackBehavior
  hidden : Bool
  category : List Char

/-- Whole engine state (the fields of class GenericCLI). commandHistory
is the deque with the oldest entry at the head, as pop_front evicts the
head. -/
structure CLIState where
  config : CLIConfig
  commands : List CLICommand
  commandHistory : List (List Char)
  historyIndex : Int
  inHistoryMode : Bool
  inputBuffer : List Char
  cursorPos : Nat
  savedInput : List Char
  isRunning : Bool

/-- Flag-map assignment: overwrite the value when the key is present,
append the binding otherwise (std::map operator square-bracket
assignment; iteration order of the map is irrelevant to every use). -/
def setFlagList (n v : List Char) : List (List Char × List Char) → List (List Char × List Char)
  | [] => [(n, v)]
  | (k, w) :: rest => if k = n then (k, v) :: rest else (k, w) :: setFlagList n v rest

/-- args.flags[name] = value. -/
def setFlag (args : CLIArgs) (n v : List Char) : CLIArgs :=
  { args with flags := setFlagList n v args.flags }

/-- args.positional.push_back(token). -/
def addPositional (args : CLIArgs) (t : List Char) : CLIArgs :=
  { args with positional := args.positional ++ [t] }

/-- Main loop of GenericCLI::parseArguments, one call per loop entry at
index i, carried as the suffix of the input starting at i.  The index
jumps of the source (i = eqPos, i = spacePos - 1, both followed by the
loop increment) become take and drop on the suffix after the two
dashes.  The final match arm of the empty input is the trailing
flush of the source after the loop. -/
def parseArgs : List Char → List Char → Bool → Bool → List Char → CLIArgs → CLIArgs
  | [], current, _, inFlag, flagName, args =>
    if current = [] then args
    else if inFlag = true then setFlag args flagName current
    else addPositional args current
  | c :: cs, current, inQuotes, inFlag, flagName, args =>
    if c = '"' ∧ inFlag = false then
      parseArgs cs current (!inQuotes) inFlag flagName args
    else if c = ' ' ∧ inQuotes = false then
      if current = [] then
        parseArgs cs current inQuotes inFlag flagName args
      else if inFlag = true then
        parseArgs cs [] inQuotes false [] (setFlag args flagName current)
      else
        parseArgs cs [] inQuotes inFlag flagName (addPositional args current)
    else if c = '-' ∧ inQuotes = false ∧ current = [] ∧ cs.head? = some '-' then
      let after := cs.tail
      match indexOfCh '=' after, indexOfCh ' ' after with
      | some k, none =>
        parseArgs (after.drop (k + 1)) current inQuotes true (after.take k) args
      | some k, some m =>
        if k < m then
          parseArgs (after.drop (k + 1)) current inQuotes true (after.take k) args
        else
          parseArgs (after.drop m) current inQuotes inFlag (after.take m)
            (setFlag args (after.take m) (lc "true"))
      | none, some m =>
        parseArgs (after.drop m) current inQuotes inFlag (after.take m)
          (setFlag args (after.take m) (lc "true"))
      | none, none =>
        parseArgs [] current inQuotes inFlag after (setFlag args after (lc "true"))
    else if c = '=' ∧ inFlag = true then
      parseArgs cs current inQuotes inFlag flagName args
    else
      parseArgs cs (current ++ [c]) inQuotes inFlag flagName args
termination_by input _ _ _ _ _ => input.length
decreasing_by
  all_goals simp_arith [List.length_drop, List.length_tail]

/-- GenericCLI::parseArguments. -/
def parseArguments (input : List Char) : CLIArgs :=
  parseArgs input [] false false [] ⟨[], []⟩

/-- CLIArgs.empty of generic_cli.h (the header text is staged at the
end of src/examples/README.md): it returns positional.empty(), so
emptiness is read off the positional sequence alone. -/
def argsEmpty (args : CLIArgs) : Bool := args.positional.isEmpty

/-- Name comparison under the active case policy: String.equals when
caseSensitive, String.equalsIgnoreCase otherwise. -/
def nameEq (cfg : CLIConfig) (a b : List Char) : Bool :=
  if cfg.caseSensitive then a = b else lowerStr a = lowerStr b

/-- GenericCLI::findCommand: first registered command whose name matches
under the case policy. -/
def findCommand (s : CLIState) (name : List Char) : Option CLICommand :=
  s.commands.find? (fun cmd => nameEq s.config cmd.name name)

/-- GenericCLI::unregisterCommand: remove every command whose name
matches (std::remove_if plus erase), reporting whether anything was
removed. -/
def unregisterCommand (s : CLIState) (name : List Char) : CLIState × Bool :=
  let kept := s.commands.filter (fun cmd => !(nameEq s.config cmd.name name))
  if kept.length ≠ s.commands.length then
    ({ s with commands := kept }, true)
  else
    (s, false)

/-- The overwrite warning printed by registerCommand when the name is
already taken. -/
def overwriteWarning (cfg : CLIConfig) (name : List Char) : List Char :=
  lc "[" ++ cfg.logTag ++ lc "] Warning: Command " ++ [apos] ++ name ++ [apos] ++
    lc " already exists, overwriting" ++ [Char.ofNat 10]

/-- GenericCLI::registerCommand: when the name already resolves to a
command, warn and unregister it, then push the new command; always
returns true. -/
def registerCommand (s : CLIState) (name description usage : List Char)
    (callback : CLIArgs → CallbackBehavior) (category : List Char) :
    CLIState × Bool × List OutEvent :=
  let (s1, out) :=
    if (findCommand s name).isSome then
      ((unregisterCommand s name).1, [OutEvent.raw (overwriteWarning s.config name)])
    else
      (s, [])
  ({ s1 with commands := s1.commands ++
      [⟨name, description, usage, callback, false, category⟩] }, true, out)

/-- The history-trimming while-loop shared by setConfig, setHistorySize
and addToHistory: pop the front (oldest) entry while the size exceeds
the capacity. -/
def shrinkToCap (cap : Nat) : List (List Char) → List (List Char)
  | [] => []
  | x :: xs => if xs.length + 1 > cap then shrinkToCap cap xs else x :: xs

/-- GenericCLI::setConfig: install the configuration, then trim the
history to the new capacity. -/
def setConfig (s : CLIState) (cfg : CLIConfig) : CLIState :=
  { s with config := cfg, commandHistory := shrinkToCap cfg.historySize s.commandHistory }

/-- GenericCLI::setHistorySize: update the capacity, then trim the
history to it. -/
def setHistorySize (s : CLIState) (n : Nat) : CLIState :=
  { s with config := { s.config with historySize := n },
           commandHistory := shrinkToCap n s.commandHistory }

/-- GenericCLI::addToHistory: reject empty lines and lines equal to the
newest stored entry, otherwise push at the back and trim to capacity. -/
def addToHistory (s : CLIState) (command : List Char) : CLIState :=
  if command = [] then s
  else if s.commandHistory ≠ [] ∧ s.commandHistory.getLast? = some command then s
  else
    { s with commandHistory :=
        shrinkToCap s.config.historySize (s.commandHistory ++ [command]) }

/-- GenericCLI::enterHistoryMode: snapshot the in-progress buffer and
point the browsing index one past the newest entry, only when not
already browsing. -/
def enterHistoryMode (s : CLIState) : CLIState :=
  if s.inHistoryMode then s
  else
    { s with savedInput := s.inputBuffer, inHistoryMode := true,
             historyIndex := (s.commandHistory.length : Int) }

/-- GenericCLI::exitHistoryMode. -/
def exitHistoryMode (s : CLIState) : CLIState :=
  if s.inHistoryMode then { s with inHistoryMode := false, historyIndex := -1 }
  else s

/-- GenericCLI::clearHistory. -/
def clearHistory (s : CLIState) : CLIState :=
  { s with commandHistory := [], historyIndex := -1, inHistoryMode := false }

/-- GenericCLI::stopCLI. -/
def stopCLI (s : CLIState) : CLIState := { s with isRunning := false }

/-- Apply one handler effect to the engine state. -/
def applyStep (s : CLIState) : HandlerStep → CLIState × List OutEvent
  | .emit kind text => (s, [OutEvent.msg kind text])
  | .stopCLI => (stopCLI s, [])
  | .clearHistory => (clearHistory s, [])

/-- Apply a handler effect script in order, collecting the outputs. -/
def applySteps (s : CLIState) : List HandlerStep → CLIState × List OutEvent
  | [] => (s, [])
  | st :: rest =>
    let (s1, o1) := applyStep s st
    let (s2, o2) := applySteps s1 rest
    (s2, o1 ++ o2)

/-- Case normalisation applied to the command name before lookup:
toLowerCase unless the configuration is case sensitive. -/
def normalizeName (cfg : CLIConfig) (n : List Char) : List Char :=
  if cfg.caseSensitive then n else lowerStr n

/-- The UnknownCommand diagnostic text of executeCommand. -/
def unknownCommandMsg (name : List Char) : List Char :=
  lc "Unknown command: " ++ [apos] ++ name ++ [apos] ++ lc ". Type " ++ [apos] ++
    lc "help" ++ [apos] ++ lc " for available commands."

/-- Removal of the command name from the positional sequence
(args.positional.erase at the begin iterator). -/
def argsTail (args : CLIArgs) : CLIArgs :=
  { args with positional := args.positional.tail }

/-- GenericCLI::executeCommand: parse, split off the command name,
look it up, and either run the handler inside the try/catch boundary or
report an unknown command. -/
def executeCommand (s : CLIState) (commandLine : List Char) : CLIState × List OutEvent :=
  if commandLine = [] then (s, [])
  else
    let args := parseArguments commandLine
    if argsEmpty args then (s, [])
    else
      let commandName := normalizeName s.config (args.positional.headD [])
      let args1 := argsTail args
      match findCommand s commandName with
      | some cmd =>
        match cmd.callback args1 with
        | .done steps => applySteps s steps
        | .throwStd steps what =>
          let (s1, o1) := applySteps s steps
          (s1, o1 ++ [OutEvent.msg .ERROR (lc "Command execution failed: " ++ what)])
        | .throwUnknown steps =>
          let (s1, o1) := applySteps s steps
          (s1, o1 ++ [OutEvent.msg .ERROR
            (lc "Unknown error occurred during command execution")])
      | none => (s, [OutEvent.msg .ERROR (unknownCommandMsg commandName)])

/-- GenericCLI::redrawInputLine: move to the line start, clear to the
end of the line, reprint the buffer, and move the terminal cursor back
to the editing position; emits nothing when echo is disabled. -/
def redrawInputLine (s : CLIState) : List OutEvent :=
  if s.config.echoEnabled = false then []
  else
    [OutEvent.raw (lc "\x1b[" ++ natChars s.cursorPos ++ lc "D"),
     OutEvent.raw (lc "\x1b[K"),
     OutEvent.raw s.inputBuffer] ++
    (if s.cursorPos < s.inputBuffer.length then
      [OutEvent.raw (lc "\x1b[" ++ natChars (s.inputBuffer.length - s.cursorPos) ++ lc "D")]
    else [])

/-- GenericCLI::clearInputLine: erase the whole line and reprint the
prompt; emits nothing when echo is disabled. -/
def clearInputLine (s : CLIState) : List OutEvent :=
  if s.config.echoEnabled = false then []
  else [OutEvent.raw (lc "\x1b[2K\x1b[G"), OutEvent.prompt]

/-- GenericCLI::processArrowUp: with a non-empty history, enter history
mode and, while not at the oldest entry, step the browsing index back
and replace the buffer with that entry. -/
def processArrowUp (s : CLIState) : CLIState × List OutEvent :=
  if s.commandHistory = [] then (s, [])
  else
    let s1 := enterHistoryMode s
    if s1.historyIndex > 0 then
      let s2 := { s1 with historyIndex := s1.historyIndex - 1 }
      let entry := s2.commandHistory.getD s2.historyIndex.toNat []
      let s3 := { s2 with inputBuffer := entry, cursorPos := entry.length }
      (s3, clearInputLine s2 ++
        (if s3.config.echoEnabled then [OutEvent.raw entry] else []))
    else (s1, [])

/-- GenericCLI::processArrowDown: while below the newest entry, step the
browsing index forward and show that entry; at the newest entry, restore
the saved in-progress buffer and leave history mode. -/
def processArrowDown (s : CLIState) : CLIState × List OutEvent :=
  if s.inHistoryMode = false then (s, [])
  else if s.historyIndex < (s.commandHistory.length : Int) - 1 then
    let s1 := { s with historyIndex := s.historyIndex + 1 }
    let entry := s1.commandHistory.getD s1.historyIndex.toNat []
    let s2 := { s1 with inputBuffer := entry, cursorPos := entry.length }
    (s2, clearInputLine s1 ++
      (if s2.config.echoEnabled then [OutEvent.raw entry] else []))
  else
    let s1 := { s with inputBuffer := s.savedInput, cursorPos := s.savedInput.length }
    (exitHistoryMode s1, clearInputLine s ++
      (if s1.config.echoEnabled then [OutEvent.raw s1.inputBuffer] else []))

/-- GenericCLI::processBackspace: remove the character left of the
cursor and move the cursor back, echoing either a backspace rubout or a
full redraw; exits history mode. -/
def processBackspace (s : CLIState) : CLIState × List OutEvent :=
  if s.cursorPos > 0 ∧ s.inputBuffer ≠ [] then
    let buf := s.inputBuffer.take (s.cursorPos - 1) ++ s.inputBuffer.drop s.cursorPos
    let s1 := { s with inputBuffer := buf, cursorPos := s.cursorPos - 1 }
    let out :=
      if s1.config.echoEnabled then
        if s1.cursorPos = buf.length then [OutEvent.raw (lc "\x08 \x08")]
        else redrawInputLine s1
      else []
    (exitHistoryMode s1, out)
  else (s, [])

/-- GenericCLI::processDelete: remove the character at the cursor
without moving it; exits history mode. -/
def processDelete (s : CLIState) : CLIState × List OutEvent :=
  if s.cursorPos < s.inputBuffer.length then
    let buf := s.inputBuffer.take s.cursorPos ++ s.inputBuffer.drop (s.cursorPos + 1)
    let s1 := { s with inputBuffer := buf }
    (exitHistoryMode s1, redrawInputLine s1)
  else (s, [])

/-- GenericCLI::processHome: in the source both the escape output and
the cursor assignment sit inside one conditional that also requires
echoEnabled, so the cursor moves only when echo is on. -/
def processHome (s : CLIState) : CLIState × List OutEvent :=
  if s.cursorPos > 0 ∧ s.config.echoEnabled = true then
    ({ s with cursorPos := 0 },
     [OutEvent.raw (lc "\x1b[" ++ natChars s.cursorPos ++ lc "D")])
  else (s, [])

/-- GenericCLI::processEnd: as with processHome, the cursor assignment
is gated on echoEnabled together with the escape output. -/
def processEnd (s : CLIState) : CLIState × List OutEvent :=
  if s.cursorPos < s.inputBuffer.length ∧ s.config.echoEnabled = true then
    ({ s with cursorPos := s.inputBuffer.length },
     [OutEvent.raw (lc "\x1b[" ++ natChars (s.inputBuffer.length - s.cursorPos) ++ lc "C")])
  else (s, [])

/-- The right-arrow case of GenericCLI::update: the escape output is
printed and the cursor advanced whenever the cursor is not at the end
of the buffer (the output is not gated on echo in the source). -/
def cursorRight (s : CLIState) : CLIState × List OutEvent :=
  if s.cursorPos < s.inputBuffer.length then
    ({ s with cursorPos := s.cursorPos + 1 }, [OutEvent.raw (lc "\x1b[C")])
  else (s, [])

/-- The left-arrow case of GenericCLI::update. -/
def cursorLeft (s : CLIState) : CLIState × List OutEvent :=
  if s.cursorPos > 0 then
    ({ s with cursorPos := s.cursorPos - 1 }, [OutEvent.raw (lc "\x1b[D")])
  else (s, [])

/-- The printable-character case of GenericCLI::update: append at the
end of the buffer or insert at the cursor, echo accordingly, advance
the cursor, and exit history mode. -/
def insertPrintable (s : CLIState) (c : Char) : CLIState × List OutEvent :=
  if s.cursorPos = s.inputBuffer.length then
    let s1 := { s with inputBuffer := s.inputBuffer ++ [c] }
    let out := if s1.config.echoEnabled then [OutEvent.raw [c]] else []
    (exitHistoryMode { s1 with cursorPos := s1.cursorPos + 1 }, out)
  else
    let s1 := { s with inputBuffer :=
        s.inputBuffer.take s.cursorPos ++ c :: s.inputBuffer.drop s.cursorPos }
    let out := if s1.config.echoEnabled then redrawInputLine s1 else []
    (exitHistoryMode { s1 with cursorPos := s1.cursorPos + 1 }, out)

/-- The submit case of GenericCLI::update: echo the line break, run and
record a non-empty buffer, clear buffer and cursor, exit history mode,
and reprint the prompt when still running. -/
def processSubmit (s : CLIState) : CLIState × List OutEvent :=
  let (s1, o1) :=
    if s.inputBuffer ≠ [] then
      let (s2, oExec) := executeCommand s s.inputBuffer
      let s3 := addToHistory s2 s.inputBuffer
      ({ s3 with inputBuffer := [], cursorPos := 0 }, oExec)
    else (s, [])
  let s4 := exitHistoryMode s1
  (s4, [OutEvent.newline] ++ o1 ++ (if s4.isRunning then [OutEvent.prompt] else []))

/-- The byte-draining loop of GenericCLI::update, processing the bytes
currently available on the transport.  An escape byte inspects the two
following bytes only when both are already available, exactly as the
source checks Serial.available; otherwise the escape byte is dropped
and the remaining bytes are processed as ordinary input on the
following iterations. -/
def updateLoop : CLIState → List Char → CLIState × List OutEvent
  | s, [] => (s, [])
  | s, '\x1b' :: seq1 :: seq2 :: rest =>
    if seq1 = '[' then
      if seq2 = 'A' then
        let (s1, o1) := processArrowUp s
        let (s2, o2) := updateLoop s1 rest
        (s2, o1 ++ o2)
      else if seq2 = 'B' then
        let (s1, o1) := processArrowDown s
        let (s2, o2) := updateLoop s1 rest
        (s2, o1 ++ o2)
      else if seq2 = 'C' then
        let (s1, o1) := cursorRight s
        let (s2, o2) := updateLoop s1 rest
        (s2, o1 ++ o2)
      else if seq2 = 'D' then
        let (s1, o1) := cursorLeft s
        let (s2, o2) := updateLoop s1 rest
        (s2, o1 ++ o2)
      else if seq2 = 'H' then
        let (s1, o1) := processHome s
        let (s2, o2) := updateLoop s1 rest
        (s2, o1 ++ o2)
      else if seq2 = 'F' then
        let (s1, o1) := processEnd s
        let (s2, o2) := updateLoop s1 rest
        (s2, o1 ++ o2)
      else if seq2 = '3' then
        match rest with
        | [] => (s, [])
        | t :: rest2 =>
          if t = '~' then
            let (s1, o1) := processDelete s
            let (s2, o2) := updateLoop s1 rest2
            (s2, o1 ++ o2)
          else updateLoop s rest2
      else updateLoop s rest
    else updateLoop s rest
  | s, '\x1b' :: rest => updateLoop s rest
  | s, c :: rest =>
    if c = '\x0a' ∨ c = '\x0d' then
      let (s1, o1) := processSubmit s
      let (s2, o2) := updateLoop s1 rest
      (s2, o1 ++ o2)
    else if c = '\x08' ∨ c = Char.ofNat 127 then
      let (s1, o1) := processBackspace s
      let (s2, o2) := updateLoop s1 rest
      (s2, o1 ++ o2)
    else if 32 ≤ c.toNat ∧ c.toNat ≤ 126 then
      let (s1, o1) := insertPrintable s c
      let (s2, o2) := updateLoop s1 rest
      (s2, o1 ++ o2)
    else updateLoop s rest

/-- GenericCLI::update: drain the available bytes unless the engine is
stopped. -/
def update (s : CLIState) (bytes : List Char) : CLIState × List OutEvent :=
  if s.isRunning = false then (s, []) else updateLoop s bytes

/-- The editing and navigation operations of the line editor, one
constructor per event class of the input decoder. -/
inductive EditorOp where
  | insertChar (c : Char)
  | eraseLeft
  | eraseAt
  | curLeft
  | curRight
  | home
  | moveEnd
  | histUp
  | histDown
  | submitLine
deriving DecidableEq, Repr

/-- Apply one editor operation, routed to the same state transformers
the byte loop uses. -/
def applyEditorOp (s : CLIState) : EditorOp → CLIState × List OutEvent
  | .insertChar c => insertPrintable s c
  | .eraseLeft => processBackspace s
  | .eraseAt => processDelete s
  | .curLeft => cursorLeft s
  | .curRight => cursorRight s
  | .home => processHome s
  | .moveEnd => processEnd s
  | .histUp => processArrowUp s
  | .histDown => processArrowDown s
  | .submitLine => processSubmit s

/-- Run a sequence of editor operations, keeping only the state. -/
def runOps (s : CLIState) (ops : List EditorOp) : CLIState :=
  ops.foldl (fun t op => (applyEditorOp t op).1) s

/-- The cursor-bounds invariant of the editor state. -/
abbrev editorInv (s : CLIState) : Prop := s.cursorPos ≤ s.inputBuffer.length

/-! ## History lemmas -/

/-- The trimming loop keeps exactly the newest cap entries: it equals
dropping the excess from the front. -/
lemma shrinkToCap_eq_drop (cap : Nat) (l : List (List Char)) :
    shrinkToCap cap l = l.drop (l.length - cap) := by
  induction l with
  | nil => simp [shrinkToCap]
  | cons x xs ih =>
    by_cases h : xs.length + 1 > cap
    · have hd : xs.length + 1 - cap = (xs.length - cap) + 1 := by omega
      simp [shrinkToCap, if_pos h, ih, hd]
    · have hd : xs.length + 1 - cap = 0 := by omega
      simp [shrinkToCap, h, hd]

lemma shrinkToCap_length_le (cap : Nat) (l : List (List Char)) :
    (shrinkToCap cap l).length ≤ cap := by
  induction l with
  | nil => simp [shrinkToCap]
  | cons x xs ih =>
    by_cases h : xs.length + 1 > cap
    · simpa [shrinkToCap, if_pos h] using ih
    · simp [shrinkToCap, h]
      omega

/-- Claim C3: appending to the history is a no-op for an empty line or
a line equal to the newest stored entry; otherwise the line is pushed
at the newest end with oldest-first eviction down to the configured
capacity, so the history length never exceeds the capacity. -/
theorem claim_C3 (s : CLIState) (cmd : List Char) :
    (cmd = [] → addToHistory s cmd = s) ∧
    (s.commandHistory ≠ [] → s.commandHistory.getLast? = some cmd →
      addToHistory s cmd = s) ∧
    (cmd ≠ [] → s.commandHistory.getLast? ≠ some cmd →
      (addToHistory s cmd).commandHistory =
        (s.commandHistory ++ [cmd]).drop
          (s.commandHistory.length + 1 - s.config.historySize)) ∧
    (s.commandHistory.length ≤ s.config.historySize →
      (addToHistory s cmd).commandHistory.length ≤ s.config.historySize) := by
  refine ⟨fun h => by simp [addToHistory, h], fun h1 h2 => by simp [addToHistory, h1, h2], ?_, ?_⟩
  · intro h1 h2
    have hcond : ¬(s.commandHistory ≠ [] ∧ s.commandHistory.getLast? = some cmd) := by
      intro hc
      exact h2 hc.2
    simp [addToHistory, h1, hcond, shrinkToCap_eq_drop]
  · intro hle
    by_cases h1 : cmd = []
    · simpa [addToHistory, h1] using hle
    · by_cases h2 : s.commandHistory ≠ [] ∧ s.commandHistory.getLast? = some cmd
      · simpa [addToHistory, h1, h2] using hle
      · simp [addToHistory, h1, h2]
        exact shrinkToCap_length_le _ _

/-- Witness for claim C3 at a concrete state. -/
theorem claim_C3_witness :
    ((lc "b" : List Char) ≠ [] ∧ ([lc "x", lc "a"] : List (List Char)).getLast? ≠ some (lc "b")) ∧
    (addToHistory
        ⟨⟨lc "p", [], false, true, 2, false, lc "t"⟩, [], [lc "x", lc "a"], -1, false, [], 0, [], true⟩
        (lc "b")).commandHistory =
      ([lc "x", lc "a"] ++ [lc "b"]).drop 1 :=
  ⟨⟨by decide, by decide⟩, by
    have h := (claim_C3
      ⟨⟨lc "p", [], false, true, 2, false, lc "t"⟩, [], [lc "x", lc "a"], -1, false, [], 0, [], true⟩
      (lc "b")).2.2.1 (by decide) (by decide)
    simpa using h⟩

/-- Claim C10: lowering the capacity through setConfig or
setHistorySize immediately evicts oldest entries (a drop from the
front) until the stored length is at most the new capacity. -/
theorem claim_C10 (s : CLIState) (cfg : CLIConfig) (n : Nat) :
    (setConfig s cfg).commandHistory =
        s.commandHistory.drop (s.commandHistory.length - cfg.historySize) ∧
    (setConfig s cfg).commandHistory.length ≤ cfg.historySize ∧
    (setConfig s cfg).config = cfg ∧
    (setHistorySize s n).commandHistory =
        s.commandHistory.drop (s.commandHistory.length - n) ∧
    (setHistorySize s n).commandHistory.length ≤ n ∧
    (setHistorySize s n).config.historySize = n := by
  refine ⟨by simp [setConfig, shrinkToCap_eq_drop], ?_, by simp [setConfig], ?_, ?_, by simp [setHistorySize]⟩
  · simpa [setConfig] using shrinkToCap_length_le cfg.historySize s.commandHistory
  · simp [setHistorySize, shrinkToCap_eq_drop]
  · simpa [setHistorySize] using shrinkToCap_length_le n s.commandHistory

/-! ## History navigation -/

/-- Claim C9: a history-up event with an empty history changes nothing,
and from outside history mode with a non-empty history, history-up
followed by history-down restores the exact in-progress buffer and
leaves history-browsing mode. -/
theorem claim_C9 (s : CLIState) :
    (s.commandHistory = [] → processArrowUp s = (s, [])) ∧
    (s.commandHistory ≠ [] → s.inHistoryMode = false →
      (processArrowDown (processArrowUp s).1).1.inputBuffer = s.inputBuffer ∧
      (processArrowDown (processArrowUp s).1).1.inHistoryMode = false) := by
  constructor
  · intro h
    simp [processArrowUp, h]
  · intro h1 h2
    have hlen : 0 < s.commandHistory.length := List.length_pos.mpr h1
    have hgt : (0 : Int) < (s.commandHistory.length : Int) := by exact_mod_cast hlen
    have hup : (processArrowUp s).1 =
        { s with savedInput := s.inputBuffer, inHistoryMode := true,
                 historyIndex := (s.commandHistory.length : Int) - 1,
                 inputBuffer := s.commandHistory.getD
                   ((s.commandHistory.length : Int) - 1).toNat [],
                 cursorPos := (s.commandHistory.getD
                   ((s.commandHistory.length : Int) - 1).toNat []).length } := by
      simp [processArrowUp, h1, enterHistoryMode, h2, hgt]
    rw [hup]
    have hnotlt : ¬((s.commandHistory.length : Int) - 1 <
        (s.commandHistory.length : Int) - 1) := lt_irrefl _
    simp [processArrowDown, hnotlt, exitHistoryMode]

/-- Witness for claim C9 at a concrete state. -/
theorem claim_C9_witness :
    (([lc "one", lc "two"] : List (List Char)) ≠ [] ∧ (false = false)) ∧
    (processArrowDown (processArrowUp
        ⟨⟨lc "p", [], false, true, 10, false, lc "t"⟩, [], [lc "one", lc "two"], -1, false,
          lc "draft", 3, [], true⟩).1).1.inputBuffer = lc "draft" :=
  ⟨⟨by decide, rfl⟩,
    ((claim_C9
      ⟨⟨lc "p", [], false, true, 10, false, lc "t"⟩, [], [lc "one", lc "two"], -1, false,
        lc "draft", 3, [], true⟩).2 (by decide) rfl).1⟩

/-! ## Echo flag and cursor state (claim C1) -/

/-- A minimal state for probing the Home-key behaviour under the two
echo settings: empty buffer, default cursor, engine running. -/
def echoProbeState (echo : Bool) : CLIState :=
  ⟨⟨lc "CLI", [], false, echo, 10, false, lc "CLI"⟩, [], [], -1, false, [], 0, [], true⟩

/-- The byte sequence typing ab and then pressing Home (ESC [ H). -/
def homeProbeBytes : List Char := lc "ab" ++ ['\x1b', '[', 'H']

/-- Claim C1 (refuted by the code): after typing ab and pressing Home,
the buffer is the same under both echo settings, but the cursor ends at
0 with echo enabled and stays at 2 with echo disabled, because
processHome performs the cursor assignment inside the echo-gated
conditional.  The spec requires echoing to be a pure projection of
state, so this run exhibits the divergence. -/
theorem claim_C1_cursor_depends_on_echo :
    (update (echoProbeState true) homeProbeBytes).1.inputBuffer =
      (update (echoProbeState false) homeProbeBytes).1.inputBuffer ∧
    (update (echoProbeState true) homeProbeBytes).1.cursorPos = 0 ∧
    (update (echoProbeState false) homeProbeBytes).1.cursorPos = 2 :=
  ⟨rfl, by decide, by decide⟩

/-! ## Cursor-bounds invariant (claim C2) -/

@[simp] lemma exitHistoryMode_inputBuffer (s : CLIState) :
    (exitHistoryMode s).inputBuffer = s.inputBuffer := by
  by_cases h : s.inHistoryMode <;> simp [exitHistoryMode, h]

@[simp] lemma exitHistoryMode_cursorPos (s : CLIState) :
    (exitHistoryMode s).cursorPos = s.cursorPos := by
  by_cases h : s.inHistoryMode <;> simp [exitHistoryMode, h]

lemma editorInv_applyEditorOp (s : CLIState) (op : EditorOp) (h : editorInv s) :
    editorInv (applyEditorOp s op).1 := by
  cases op with
  | insertChar c =>
    by_cases hc : s.cursorPos = s.inputBuffer.length
    · simp [applyEditorOp, insertPrintable, hc]
    · simp [applyEditorOp, insertPrintable, hc, editorInv, List.length_take]
      omega
  | eraseLeft =>
    by_cases hc : s.cursorPos > 0 ∧ s.inputBuffer ≠ []
    · have hne : 0 < s.inputBuffer.length := List.length_pos.mpr hc.2
      simp [applyEditorOp, processBackspace, hc, editorInv, List.length_take]
      omega
    · simpa [applyEditorOp, processBackspace, hc] using h
  | eraseAt =>
    by_cases hc : s.cursorPos < s.inputBuffer.length
    · simp [applyEditorOp, processDelete, hc, editorInv, List.length_take]
      omega
    · simpa [applyEditorOp, processDelete, hc] using h
  | curLeft =>
    by_cases hc : s.cursorPos > 0
    · simp [applyEditorOp, cursorLeft, hc, editorInv]
      omega
    · simpa [applyEditorOp, cursorLeft, hc] using h
  | curRight =>
    by_cases hc : s.cursorPos < s.inputBuffer.length
    · simp [applyEditorOp, cursorRight, hc, editorInv]
      omega
    · simpa [applyEditorOp, cursorRight, hc] using h
  | home =>
    by_cases hc : s.cursorPos > 0 ∧ s.config.echoEnabled = true
    · simp [applyEditorOp, processHome, hc, editorInv]
    · simpa [applyEditorOp, processHome, hc] using h
  | moveEnd =>
    by_cases hc : s.cursorPos < s.inputBuffer.length ∧ s.config.echoEnabled = true
    · simp [applyEditorOp, processEnd, hc, editorInv]
    · simpa [applyEditorOp, processEnd, hc] using h
  | histUp =>
    by_cases he : s.commandHistory = []
    · simpa [applyEditorOp, processArrowUp, he] using h
    · by_cases hm : s.inHistoryMode
      · by_cases hgt : s.historyIndex > 0
        · simp [applyEditorOp, processArrowUp, he, enterHistoryMode, hm, hgt, editorInv]
        · simpa [applyEditorOp, processArrowUp, he, enterHistoryMode, hm, hgt] using h
      · have hgt : (0 : Int) < (s.commandHistory.length : Int) := by
          exact_mod_cast List.length_pos.mpr he
        simp [applyEditorOp, processArrowUp, he, enterHistoryMode, hm, hgt, editorInv]
  | histDown =>
    by_cases hm : s.inHistoryMode = false
    · simpa [applyEditorOp, processArrowDown, hm] using h
    · by_cases hlt : s.historyIndex < (s.commandHistory.length : Int) - 1
      · simp [applyEditorOp, processArrowDown, hm, hlt, editorInv]
      · simp [applyEditorOp, processArrowDown, hm, hlt, editorInv]
  | submitLine =>
    by_cases hb : s.inputBuffer ≠ []
    · simp [applyEditorOp, processSubmit, hb, editorInv]
    · simpa [applyEditorOp, processSubmit, hb] using h

/-- Claim C2: for every sequence of insert, erase-left, erase-at,
cursor-move, history-navigation and submit operations, the cursor
offset stays within the buffer bounds after every single operation. -/
theorem claim_C2 (s : CLIState) (ops : List EditorOp) (h : editorInv s) :
    editorInv (runOps s ops) := by
  induction ops generalizing s with
  | nil => exact h
  | cons op rest ih =>
    exact ih _ (editorInv_applyEditorOp s op h)

/-- A concrete editing session for the claim C2 witness. -/
def demoOps : List EditorOp :=
  [.insertChar 'a', .insertChar 'b', .curLeft, .home, .insertChar 'c',
   .eraseLeft, .moveEnd, .curRight, .eraseAt, .histUp, .histDown, .eraseLeft]

/-- Witness for claim C2 on a concrete state and operation sequence. -/
theorem claim_C2_witness :
    editorInv (echoProbeState true) ∧ editorInv (runOps (echoProbeState true) demoOps) :=
  ⟨by decide, claim_C2 (echoProbeState true) demoOps (by decide)⟩

/-! ## Registry replacement (claim C6) -/

lemma length_filter_partition {α : Type} (p : α → Bool) (l : List α) :
    (l.filter p).length + (l.filter (fun a => !(p a))).length = l.length := by
  induction l with
  | nil => rfl
  | cons x xs ih =>
    by_cases h : p x = true <;> simp [List.filter_cons, h] <;> omega

lemma filter_pos_of_find {α : Type} (p : α → Bool) (l : List α)
    (h : (l.find? p).isSome = true) : 0 < (l.filter p).length := by
  induction l with
  | nil => simp [List.find?] at h
  | cons x xs ih =>
    by_cases hx : p x = true
    · simp [List.filter_cons, hx]
    · rw [List.find?_cons_of_neg _ hx] at h
      simpa [List.filter_cons, hx] using ih h

/-- Claim C6: registering a name that already has a registered entry
removes the old entry, appends the new one, keeps the registry size
unchanged, and reports success. -/
theorem claim_C6 (s : CLIState) (name description usage : List Char)
    (cb : CLIArgs → CallbackBehavior) (category : List Char)
    (huniq : (s.commands.filter (fun c => nameEq s.config c.name name)).length ≤ 1)
    (hreg : (findCommand s name).isSome = true) :
    (registerCommand s name description usage cb category).2.1 = true ∧
    (registerCommand s name description usage cb category).1.commands.length =
      s.commands.length ∧
    (registerCommand s name description usage cb category).1.commands =
      s.commands.filter (fun c => !(nameEq s.config c.name name)) ++
        [⟨name, description, usage, cb, false, category⟩] := by
  have hpos : 0 < (s.commands.filter (fun c => nameEq s.config c.name name)).length :=
    filter_pos_of_find _ _ hreg
  have hpart := length_filter_partition (fun c => nameEq s.config c.name name) s.commands
  have hne : (s.commands.filter (fun c => !(nameEq s.config c.name name))).length ≠
      s.commands.length := by omega
  refine ⟨?_, ?_, ?_⟩ <;>
    simp [registerCommand, hreg, unregisterCommand, hne]
  omega

/-- Witness for claim C6: re-registering the name led over a registry
holding exactly that command. -/
theorem claim_C6_witness :
    (((⟨⟨lc "p", [], false, true, 10, false, lc "t"⟩,
        [⟨lc "led", lc "old", lc "led", fun _ => .done [], false, lc "Cat"⟩],
        [], -1, false, [], 0, [], true⟩ : CLIState).commands.filter
          (fun c => nameEq ⟨lc "p", [], false, true, 10, false, lc "t"⟩ c.name (lc "led"))).length ≤ 1 ∧
      (findCommand
        ⟨⟨lc "p", [], false, true, 10, false, lc "t"⟩,
          [⟨lc "led", lc "old", lc "led", fun _ => .done [], false, lc "Cat"⟩],
          [], -1, false, [], 0, [], true⟩ (lc "led")).isSome = true) ∧
    (registerCommand
        ⟨⟨lc "p", [], false, true, 10, false, lc "t"⟩,
          [⟨lc "led", lc "old", lc "led", fun _ => .done [], false, lc "Cat"⟩],
          [], -1, false, [], 0, [], true⟩
        (lc "led") (lc "new") (lc "led x") (fun _ => .done []) (lc "Cat")).1.commands.length = 1 := by
  refine ⟨⟨?_, ?_⟩, ?_⟩
  · simp [nameEq, lowerStr, lc, toLowerCh]
  · rfl
  · have h := (claim_C6
      ⟨⟨lc "p", [], false, true, 10, false, lc "t"⟩,
        [⟨lc "led", lc "old", lc "led", fun _ => .done [], false, lc "Cat"⟩],
        [], -1, false, [], 0, [], true⟩
      (lc "led") (lc "new") (lc "led x") (fun _ => .done []) (lc "Cat")
      (by simp [nameEq, lowerStr, lc, toLowerCh]) rfl).2.1
    simpa using h

/-! ## Dispatch of unknown commands (claim C7) -/

lemma parseArguments_nil : parseArguments [] = ⟨[], []⟩ := by
  simp [parseArguments, parseArgs]

/-- Claim C7: when the first positional token resolves to no registered
command, executeCommand returns the state untouched (history and
registry included) together with a single UnknownCommand error event,
and nothing else. -/
theorem claim_C7 (s : CLIState) (line : List Char)
    (hpos : (parseArguments line).positional ≠ [])
    (hfind : findCommand s
      (normalizeName s.config ((parseArguments line).positional.headD [])) = none) :
    executeCommand s line =
      (s, [OutEvent.msg .ERROR (unknownCommandMsg
        (normalizeName s.config ((parseArguments line).positional.headD [])))]) := by
  have hline : line ≠ [] := by
    intro h
    rw [h, parseArguments_nil] at hpos
    exact hpos rfl
  have hempty : argsEmpty (parseArguments line) = false := by
    simpa [argsEmpty, List.isEmpty_iff] using hpos
  simp only [List.headD_eq_head?_getD] at hfind
  simp [executeCommand, hline, hempty, hfind]

/-- The concrete state used by the dispatch witnesses: one registered
command named led whose handler emits a message. -/
def ledState : CLIState :=
  ⟨⟨lc "p", [], false, true, 10, false, lc "t"⟩,
    [⟨lc "led", lc "LED control", lc "led", fun _ => .done [.emit .INFO (lc "ok")], false,
      lc "Cat"⟩],
    [lc "old"], -1, false, [], 0, [], true⟩

/-- Witness for claim C7: dispatching the unregistered name nosuch. -/
theorem claim_C7_witness :
    ((parseArguments (lc "nosuch arg")).positional ≠ [] ∧
      findCommand ledState
        (normalizeName ledState.config ((parseArguments (lc "nosuch arg")).positional.headD [])) =
          none) ∧
    executeCommand ledState (lc "nosuch arg") =
      (ledState, [OutEvent.msg .ERROR (unknownCommandMsg (lc "nosuch"))]) := by
  have h1 : (parseArguments (lc "nosuch arg")).positional = [lc "nosuch", lc "arg"] := by
    simp [parseArguments, parseArgs, lc, addPositional]
  have hpos : (parseArguments (lc "nosuch arg")).positional ≠ [] := by
    rw [h1]
    decide
  have hname : normalizeName ledState.config
      ((parseArguments (lc "nosuch arg")).positional.headD []) = lc "nosuch" := by
    rw [h1]
    decide
  have hfind : findCommand ledState
      (normalizeName ledState.config ((parseArguments (lc "nosuch arg")).positional.headD [])) =
        none := by
    rw [hname]
    rfl
  refine ⟨⟨hpos, hfind⟩, ?_⟩
  rw [claim_C7 ledState (lc "nosuch arg") hpos hfind, hname]

/-! ## Fault containment at the dispatch boundary (claim C8) -/

/-- The effect script a handler ran before returning or faulting. -/
def callbackSteps : CallbackBehavior → List HandlerStep
  | .done steps => steps
  | .throwStd steps _ => steps
  | .throwUnknown steps => steps

/-- The CommandFailure diagnostic the dispatch boundary produces for a
faulting handler, none for a normal return. -/
def callbackFaultMsg : CallbackBehavior → Option (List Char)
  | .done _ => none
  | .throwStd _ what => some (lc "Command execution failed: " ++ what)
  | .throwUnknown _ => some (lc "Unknown error occurred during command execution")

lemma applySteps_isRunning (steps : List HandlerStep) (s : CLIState)
    (h : HandlerStep.stopCLI ∉ steps) : (applySteps s steps).1.isRunning = s.isRunning := by
  induction steps generalizing s with
  | nil => rfl
  | cons st rest ih =>
    have hst : st ≠ HandlerStep.stopCLI := fun he => h (he ▸ List.mem_cons_self st rest)
    have hrest : HandlerStep.stopCLI ∉ rest := fun hm => h (List.mem_cons_of_mem st hm)
    cases st with
    | emit kind text => simpa [applySteps, applyStep] using ih _ hrest
    | stopCLI => exact absurd rfl hst
    | clearHistory => simpa [applySteps, applyStep, clearHistory] using ih _ hrest

/-- Claim C8: a fault raised by the invoked handler is caught at the
dispatch boundary and turned into a trailing CommandFailure error
event; executeCommand still returns normally and, as long as the
handler itself did not stop the engine, the session stays running. -/
theorem claim_C8 (s : CLIState) (line : List Char) (cmd : CLICommand) (m : List Char)
    (hpos : (parseArguments line).positional ≠ [])
    (hfind : findCommand s
      (normalizeName s.config ((parseArguments line).positional.headD [])) = some cmd)
    (hfault : callbackFaultMsg (cmd.callback (argsTail (parseArguments line))) = some m)
    (hnostop : HandlerStep.stopCLI ∉ callbackSteps (cmd.callback (argsTail (parseArguments line)))) :
    executeCommand s line =
      ((applySteps s (callbackSteps (cmd.callback (argsTail (parseArguments line))))).1,
        (applySteps s (callbackSteps (cmd.callback (argsTail (parseArguments line))))).2 ++
          [OutEvent.msg .ERROR m]) ∧
    (executeCommand s line).1.isRunning = s.isRunning := by
  have hline : line ≠ [] := by
    intro h
    rw [h, parseArguments_nil] at hpos
    exact hpos rfl
  have hempty : argsEmpty (parseArguments line) = false := by
    simpa [argsEmpty, List.isEmpty_iff] using hpos
  cases hb : cmd.callback (argsTail (parseArguments line)) with
  | done steps =>
    rw [hb] at hfault
    simp [callbackFaultMsg] at hfault
  | throwStd steps what =>
    rw [hb] at hnostop
    have hm : some (lc "Command execution failed: " ++ what) = some m := by
      rw [hb] at hfault
      simpa [callbackFaultMsg] using hfault
    have hmm := Option.some.inj hm
    have hexec : executeCommand s line =
        ((applySteps s steps).1, (applySteps s steps).2 ++ [OutEvent.msg .ERROR m]) := by
      have hfind2 := hfind
      simp only [List.headD_eq_head?_getD] at hfind2
      simp [executeCommand, hline, hempty, hfind2, hb, hmm]
    refine ⟨by simpa [hb, callbackSteps] using hexec, ?_⟩
    rw [hexec]
    exact applySteps_isRunning steps s (by simpa [callbackSteps] using hnostop)
  | throwUnknown steps =>
    rw [hb] at hnostop
    have hm : some (lc "Unknown error occurred during command execution") = some m := by
      rw [hb] at hfault
      simpa [callbackFaultMsg] using hfault
    have hmm := Option.some.inj hm
    have hexec : executeCommand s line =
        ((applySteps s steps).1, (applySteps s steps).2 ++ [OutEvent.msg .ERROR m]) := by
      have hfind2 := hfind
      simp only [List.headD_eq_head?_getD] at hfind2
      simp [executeCommand, hline, hempty, hfind2, hb, hmm]
    refine ⟨by simpa [hb, callbackSteps] using hexec, ?_⟩
    rw [hexec]
    exact applySteps_isRunning steps s (by simpa [callbackSteps] using hnostop)

/-- The concrete state for the claim C8 witness: the command boom emits
one message and then throws a std::exception. -/
def boomState : CLIState :=
  ⟨⟨lc "p", [], false, true, 10, false, lc "t"⟩,
    [⟨lc "boom", lc "always fails", lc "boom", fun _ =>
      .throwStd [.emit .INFO (lc "starting")] (lc "bad alloc"), false, lc "Cat"⟩],
    [], -1, false, [], 0, [], true⟩

/-- The command registered in boomState, for applying claim C8. -/
def boomCommand : CLICommand :=
  ⟨lc "boom", lc "always fails", lc "boom", fun _ =>
    .throwStd [.emit .INFO (lc "starting")] (lc "bad alloc"), false, lc "Cat"⟩

/-- Witness for claim C8: dispatching boom keeps the engine running and
ends the output with the CommandFailure report. -/
theorem claim_C8_witness :
    ((parseArguments (lc "boom now")).positional ≠ [] ∧
      findCommand boomState
        (normalizeName boomState.config ((parseArguments (lc "boom now")).positional.headD [])) =
          some boomCommand) ∧
    (executeCommand boomState (lc "boom now")).1.isRunning = true := by
  have h1 : (parseArguments (lc "boom now")).positional = [lc "boom", lc "now"] := by
    simp [parseArguments, parseArgs, lc, addPositional]
  have hpos : (parseArguments (lc "boom now")).positional ≠ [] := by
    rw [h1]
    decide
  have hname : normalizeName boomState.config
      ((parseArguments (lc "boom now")).positional.headD []) = lc "boom" := by
    rw [h1]
    decide
  have hfind : findCommand boomState
      (normalizeName boomState.config ((parseArguments (lc "boom now")).positional.headD [])) =
        some boomCommand := by
    rw [hname]
    rfl
  refine ⟨⟨hpos, hfind⟩, ?_⟩
  have h := (claim_C8 boomState (lc "boom now") boomCommand
    (lc "Command execution failed: bad alloc") hpos hfind rfl (by decide)).2
  simpa using h

/-! ## Tokenizer lemmas (claims C4 and C5) -/

/-- A character with no lexical role for the tokenizer outside quotes. -/
abbrev plainChar (c : Char) : Prop := c ≠ '"' ∧ c ≠ ' ' ∧ c ≠ '=' ∧ c ≠ '-'

lemma indexOfCh_eq_none (t : Char) (l : List Char) (h : t ∉ l) :
    indexOfCh t l = none := by
  induction l with
  | nil => rfl
  | cons c cs ih =>
    have hc : c ≠ t := fun he => h (he ▸ List.mem_cons_self c cs)
    simp [indexOfCh, hc, ih (fun hm => h (List.mem_cons_of_mem c hm))]

lemma indexOfCh_append_cons (t : Char) (l r : List Char) (h : t ∉ l) :
    indexOfCh t (l ++ t :: r) = some l.length := by
  induction l with
  | nil => simp [indexOfCh]
  | cons c cs ih =>
    have hc : c ≠ t := fun he => h (he ▸ List.mem_cons_self c cs)
    simp [indexOfCh, hc, ih (fun hm => h (List.mem_cons_of_mem c hm))]

lemma drop_append_cons {α : Type} (l : List α) (x : α) (r : List α) :
    (l ++ x :: r).drop (l.length + 1) = r := by
  induction l with
  | nil => simp
  | cons c cs ih => simp [ih]

/-- Inside a flag value, every plain character is accumulated, and the
trailing flush records the flag. -/
lemma parseArgs_flagValue (v : List Char) (hv : ∀ c ∈ v, plainChar c) :
    ∀ (cur fn : List Char) (args : CLIArgs),
      parseArgs v cur false true fn args =
        (if cur ++ v = [] then args else setFlag args fn (cur ++ v)) := by
  induction v with
  | nil =>
    intro cur fn args
    rw [parseArgs.eq_def]
    simp
  | cons c v ih =>
    intro cur fn args
    have hc : plainChar c := hv c (List.mem_cons_self c v)
    have hv2 : ∀ d ∈ v, plainChar d := fun d hd => hv d (List.mem_cons_of_mem c hd)
    rw [parseArgs.eq_def]
    simp only []
    rw [if_neg (by simp), if_neg (by simp [hc.2.1]),
      if_neg (fun h => hc.2.2.2 h.1), if_neg (by simp [hc.2.2.1])]
    rw [ih hv2 (cur ++ [c]) fn args]
    simp

/-- Inside a quoted span, every character other than the quote is
accumulated. -/
lemma parseArgs_quoted (v : List Char) (hv : '"' ∉ v) :
    ∀ (rest cur fn : List Char) (args : CLIArgs),
      parseArgs (v ++ rest) cur true false fn args =
        parseArgs rest (cur ++ v) true false fn args := by
  induction v with
  | nil => intro rest cur fn args; simp
  | cons c v ih =>
    intro rest cur fn args
    have hc : c ≠ '"' := fun he => hv (he ▸ List.mem_cons_self c v)
    have hv2 : '"' ∉ v := fun hm => hv (List.mem_cons_of_mem c hm)
    rw [List.cons_append, parseArgs.eq_def]
    simp only []
    rw [if_neg (fun h => hc h.1), if_neg (by simp), if_neg (fun h => by simpa using h.2.1),
      if_neg (by simp)]
    rw [ih hv2 rest (cur ++ [c]) fn args]
    simp

/-- Claim C4: double-dash tokens parse as flags.  The name=value form
binds the value, the bare form binds the literal string true, and the
concrete example line from the spec tokenizes as stated. -/
theorem claim_C4 :
    parseArguments (lc "led blink --count=5 --delay=200") =
      ⟨[lc "led", lc "blink"], [(lc "count", lc "5"), (lc "delay", lc "200")]⟩ ∧
    (∀ name value : List Char, name ≠ [] → value ≠ [] →
      (∀ c ∈ name, plainChar c) → (∀ c ∈ value, plainChar c) →
      parseArguments ('-' :: '-' :: (name ++ '=' :: value)) = ⟨[], [(name, value)]⟩) ∧
    (∀ name : List Char, name ≠ [] → (∀ c ∈ name, plainChar c) →
      parseArguments ('-' :: '-' :: name) = ⟨[], [(name, lc "true")]⟩) := by
  refine ⟨?_, ?_, ?_⟩
  · simp [parseArguments, parseArgs, lc, addPositional, setFlag, setFlagList, indexOfCh]
  · intro name value hn hv hpn hpv
    have hne : '=' ∉ name := fun hm => (hpn '=' hm).2.2.1 rfl
    have heq : indexOfCh '=' (name ++ '=' :: value) = some name.length :=
      indexOfCh_append_cons '=' name value hne
    have hsp : indexOfCh ' ' (name ++ '=' :: value) = none := by
      refine indexOfCh_eq_none ' ' _ (fun hm => ?_)
      rcases List.mem_append.mp hm with hm1 | hm2
      · exact (hpn ' ' hm1).2.1 rfl
      · rcases List.mem_cons.mp hm2 with hm3 | hm4
        · exact absurd hm3.symm (by decide)
        · exact (hpv ' ' hm4).2.1 rfl
    rw [parseArguments, parseArgs.eq_def]
    simp only []
    rw [if_neg (by simp), if_neg (by simp),
      if_pos (by simp)]
    simp only [List.tail_cons, heq, hsp]
    rw [List.take_left, drop_append_cons]
    rw [parseArgs_flagValue value hpv [] name ⟨[], []⟩]
    simp [hv, setFlag, setFlagList]
  · intro name hn hpn
    have hne : indexOfCh '=' name = none :=
      indexOfCh_eq_none '=' name (fun hm => (hpn '=' hm).2.2.1 rfl)
    have hsp : indexOfCh ' ' name = none :=
      indexOfCh_eq_none ' ' name (fun hm => (hpn ' ' hm).2.1 rfl)
    rw [parseArguments, parseArgs.eq_def]
    simp only []
    rw [if_neg (by simp), if_neg (by simp),
      if_pos (by simp)]
    simp only [List.tail_cons, hne, hsp]
    rw [parseArgs.eq_def]
    simp [setFlag, setFlagList]

/-- Witness for claim C4 at concrete flag names and values. -/
theorem claim_C4_witness :
    ((lc "count" : List Char) ≠ [] ∧ (lc "5" : List Char) ≠ [] ∧
      (∀ c ∈ lc "count", plainChar c) ∧ (∀ c ∈ lc "5", plainChar c) ∧
      (∀ c ∈ lc "verbose", plainChar c)) ∧
    parseArguments ('-' :: '-' :: (lc "count" ++ '=' :: lc "5")) =
      ⟨[], [(lc "count", lc "5")]⟩ ∧
    parseArguments ('-' :: '-' :: lc "verbose") = ⟨[], [(lc "verbose", lc "true")]⟩ :=
  ⟨⟨by decide, by decide, by decide, by decide, by decide⟩,
    claim_C4.2.1 (lc "count") (lc "5") (by decide) (by decide) (by decide) (by decide),
    claim_C4.2.2 (lc "verbose") (by decide) (by decide)⟩

/-- Claim C5: a double-quoted span is one literal positional token with
the quotes removed, an unterminated quote consumes the rest of the line
as one token, and the concrete example line from the spec tokenizes as
stated. -/
theorem claim_C5 :
    parseArguments (lc "wifi connect \"My Network\" pw") =
      ⟨[lc "wifi", lc "connect", lc "My Network", lc "pw"], []⟩ ∧
    (∀ v : List Char, '"' ∉ v → v ≠ [] →
      parseArguments ('"' :: v) = ⟨[v], []⟩ ∧
      parseArguments ('"' :: (v ++ ['"'])) = ⟨[v], []⟩) := by
  constructor
  · simp [parseArguments, parseArgs, lc, addPositional, setFlag, setFlagList, indexOfCh]
  · intro v hq hv
    have hstep : ∀ rest : List Char,
        parseArguments ('"' :: rest) = parseArgs rest [] true false [] ⟨[], []⟩ := by
      intro rest
      rw [parseArguments, parseArgs.eq_def]
      simp
    constructor
    · rw [hstep v, ← List.append_nil v, parseArgs_quoted v hq [] [] [] ⟨[], []⟩]
      rw [parseArgs.eq_def]
      simp [hv, addPositional]
    · rw [hstep (v ++ ['"']), parseArgs_quoted v hq ['"'] [] [] ⟨[], []⟩]
      rw [parseArgs.eq_def]
      simp only []
      rw [if_pos (by simp)]
      rw [parseArgs.eq_def]
      simp [hv, addPositional]

/-- Witness for claim C5 at a concrete quoted span. -/
theorem claim_C5_witness :
    ((('"' : Char) ∉ lc "My Network") ∧ (lc "My Network" : List Char) ≠ []) ∧
    parseArguments ('"' :: lc "My Network") = ⟨[lc "My Network"], []⟩ ∧
    parseArguments ('"' :: (lc "My Network" ++ ['"'])) = ⟨[lc "My Network"], []⟩ :=
  ⟨⟨by decide, by decide⟩,
    (claim_C5.2 (lc "My Network") (by decide) (by decide)).1,
    (claim_C5.2 (lc "My Network") (by decide) (by decide)).2⟩

end GenericCLI
